import Mathlib

/-!
Verification of scripts/check_esi_update.py.

The script is a batch job: fetch a JSON payload of compatibility dates,
compute the latest date, compare with a persisted state file, post to a
Discord webhook when changed (or forced), and persist the new value.

The embedding below translates each Python function into a pure Lean
function.  JSON values are modelled by an inductive type whose arrays
hold strings, matching the List[str] domain the script declares and the
only array shape any code path ever consumes.  Python datetime values
produced by strptime with format Y-m-d are modelled by the natural
number y * 10000 + m * 100 + d, which is order-isomorphic to the
datetime ordering on the valid range (month at most 12, day at most 31).
File I/O is modelled by the file content as an Option String (none for a
missing file), and the Discord POST by an outcome flag (success, or the
fatal-error path that calls sys.exit(1)).
-/

/-- JSON values as far as the script distinguishes them.  Arrays hold
strings, matching the List[str] payloads of the API. -/
inductive Json where
  | jnull
  | jbool (b : Bool)
  | jnum (n : Int)
  | jstr (s : String)
  | jarr (elems : List String)
  | jobj (fields : List (String × Json))

/-- The Python runtime type name of a Json value, as printed by
type(x).__name__ in the error messages of the script. -/
def Json.typeName : Json → String
  | Json.jnull => "NoneType"
  | Json.jbool _ => "bool"
  | Json.jnum _ => "int"
  | Json.jstr _ => "str"
  | Json.jarr _ => "list"
  | Json.jobj _ => "dict"

/-- Whether a Json value is an object (a Python dict). -/
def Json.isObj : Json → Bool
  | Json.jobj _ => true
  | _ => false

/-- Whether a Json value is an array (a Python list). -/
def Json.isArr : Json → Bool
  | Json.jarr _ => true
  | _ => false

/-- The possible inputs of extract_compatibility_dates and
get_latest_date: Python None, a bare list of strings, or a dict. -/
inductive DatesData where
  | pynone
  | list (xs : List String)
  | dict (fields : List (String × Json))

/-- Python truthiness of the dates_data argument: None, the empty list
and the empty dict are falsy. -/
def pyFalsy : DatesData → Bool
  | DatesData.pynone => true
  | DatesData.list xs => xs.isEmpty
  | DatesData.dict fields => fields.isEmpty

/-- Key lookup in a Python dict, modelled as first match in the
association list (dict keys are unique). -/
def lookupKey (k : String) : List (String × Json) → Option Json
  | [] => none
  | (k2, v) :: rest => if k2 = k then some v else lookupKey k rest

/-- Python repr of a single string with surrounding single quotes, as it
appears inside the repr of a list of keys. -/
def pyQuote (s : String) : String := "\x27" ++ s ++ "\x27"

/-- The comma-separated body of the Python repr of a list of strings. -/
def pyJoinComma : List String → String
  | [] => ""
  | [k] => pyQuote k
  | k :: rest => pyQuote k ++ ", " ++ pyJoinComma rest

/-- Python repr of a list of strings, as rendered by the f-string
interpolation of list(dates_data.keys()) in the script. -/
def pyReprStrList (ks : List String) : String := "[" ++ pyJoinComma ks ++ "]"

/-- The message of the ValueError raised by extract_compatibility_dates
when the compatibility_dates key is missing (lines 70-74 of the
script). -/
def missingKeyMsg (fields : List (String × Json)) : String :=
  "Missing \x27compatibility_dates\x27 key in response. Available keys: "
    ++ pyReprStrList (fields.map Prod.fst)

/-- The message of the ValueError raised by extract_compatibility_dates
when the value under compatibility_dates is not a list (lines 77-80). -/
def notAListMsg (v : Json) : String :=
  "\x27compatibility_dates\x27 should be a list, got " ++ v.typeName

/-- extract_compatibility_dates (lines 52-84): a bare list is returned
as-is; for a dict the compatibility_dates key must exist and hold a
list; anything else raises ValueError, modelled as Except.error carrying
the message. -/
def extract_compatibility_dates : DatesData → Except String (List String)
  | DatesData.list xs => Except.ok xs
  | DatesData.dict fields =>
    match lookupKey "compatibility_dates" fields with
    | none => Except.error (missingKeyMsg fields)
    | some (Json.jarr xs) => Except.ok xs
    | some v => Except.error (notAListMsg v)
  | DatesData.pynone => Except.error ("Unexpected data type: NoneType")

/-- Split a character list at every occurrence of a separator character,
modelling Python str.split with a one-character separator. -/
def splitOnChar (c : Char) : List Char → List (List Char)
  | [] => [[]]
  | x :: xs =>
    if x = c then [] :: splitOnChar c xs
    else
      match splitOnChar c xs with
      | [] => [[x]]
      | p :: ps => (x :: p) :: ps

/-- Numeric value of a list of decimal digit characters. -/
def digitsToNat (l : List Char) : Nat :=
  l.foldl (fun acc c => acc * 10 + (c.toNat - 48)) 0

/-- Gregorian leap-year rule, as used by Python datetime validation. -/
def isLeapYear (y : Nat) : Bool :=
  (y % 4 == 0 && y % 100 != 0) || y % 400 == 0

/-- Number of days in a month, as used by Python datetime validation. -/
def daysInMonth (y m : Nat) : Nat :=
  if m = 2 then (if isLeapYear y then 29 else 28)
  else if m = 4 ∨ m = 6 ∨ m = 9 ∨ m = 11 then 30
  else 31

/-- datetime.strptime(s, "%Y-%m-%d"), modelled on the character list of
the string: exactly three dash-separated fields, the year exactly four
digits (CPython strptime matches %Y as four digits here) and at least 1,
month one or two digits in 1..12, day one or two digits and valid for
the month; returns the order-isomorphic key y * 10000 + m * 100 + d. -/
def parseYMD (l : List Char) : Option Nat :=
  match splitOnChar '-' l with
  | [ys, ms, ds] =>
    let y := digitsToNat ys
    let m := digitsToNat ms
    let d := digitsToNat ds
    if ys.length = 4 ∧ ys.all Char.isDigit ∧ 1 ≤ y ∧
       1 ≤ ms.length ∧ ms.length ≤ 2 ∧ ms.all Char.isDigit ∧ 1 ≤ m ∧ m ≤ 12 ∧
       1 ≤ ds.length ∧ ds.length ≤ 2 ∧ ds.all Char.isDigit ∧ 1 ≤ d ∧ d ≤ daysInMonth y m
    then some (y * 10000 + m * 100 + d)
    else none
  | _ => none

/-- parse_iso_date (lines 87-113): first try the plain Y-m-d format;
on failure, if the string contains a T, parse the part before the first
T; otherwise fail (ValueError, modelled as none). -/
def parse_iso_date (s : String) : Option Nat :=
  match parseYMD s.data with
  | some k => some k
  | none =>
    if s.data.contains 'T' then
      parseYMD ((splitOnChar 'T' s.data).headD [])
    else none

/-- The parsed-date key of a string, defaulting to 0; only used under
the hypothesis that parsing succeeded. -/
def dateKey (s : String) : Nat := (parse_iso_date s).getD 0

/-- The list comprehension of line 138: pair every date string with its
parsed date; the whole computation fails (ValueError) as soon as one
entry fails to parse. -/
def parseAll : List String → Option (List (String × Nat))
  | [] => some []
  | s :: rest =>
    match parse_iso_date s, parseAll rest with
    | some k, some ps => some ((s, k) :: ps)
    | _, _ => none

/-- get_latest_date (lines 116-147): falsy input gives None; extraction
errors are absorbed and give None; an empty extracted list gives None;
otherwise all entries are parsed and stably sorted by parsed date and
the original string of the last element is returned; if any entry fails
to parse, the whole comparison falls back to sorting the raw strings
(Python string order, i.e. lexicographic on the character lists). -/
def get_latest_date (dd : DatesData) : Option String :=
  if pyFalsy dd then none
  else
    match extract_compatibility_dates dd with
    | Except.error _ => none
    | Except.ok dates =>
      if dates.isEmpty then none
      else
        match parseAll dates with
        | some parsed =>
          match (parsed.mergeSort (fun a b => decide (a.2 ≤ b.2))).getLast? with
          | some p => some p.1
          | none => none
        | none =>
          (dates.mergeSort (fun a b => decide (a.data ≤ b.data))).getLast?

/-- Python str.strip on the character list: drop whitespace from both
ends. -/
def pyStrip (s : String) : String :=
  String.mk (((s.data.dropWhile Char.isWhitespace).reverse.dropWhile
    Char.isWhitespace).reverse)

/-- read_last_known_date (lines 150-168) over the modelled file system:
the file content is an Option String, none meaning the file does not
exist.  The content is stripped; an empty result is reported as None. -/
def read_last_known_date (file : Option String) : Option String :=
  match file with
  | none => none
  | some content =>
    let c := pyStrip content
    if c = "" then none else some c

/-- write_latest_date (lines 171-186) over the modelled file system:
overwrites the file with exactly the given string.  The result is the
new file content. -/
def write_latest_date (_file : Option String) (date : String) : Option String :=
  some date

/-- Python truthiness of an optional string: None and the empty string
are falsy. -/
def pyTruthy : Option String → Bool
  | none => false
  | some s => !(s = "")

/-- The JSON payload built by post_to_discord (lines 200-206), as an
association list in insertion order: content always, then username and
avatar_url guarded by Python truthiness of the optional arguments. -/
def post_to_discord_payload (message : String) (username avatar_url : Option String) :
    List (String × String) :=
  [("content", message)]
    ++ (if pyTruthy username then [("username", username.getD "")] else [])
    ++ (if pyTruthy avatar_url then [("avatar_url", avatar_url.getD "")] else [])

/-- The response-shape validation step of fetch_esi_compatibility_dates
(lines 37-43): a parsed JSON value that is not a dict causes
sys.exit(1), modelled as Except.error 1; a dict is returned. -/
def fetch_esi_validate (data : Json) : Except Nat Json :=
  match data with
  | Json.jobj _ => Except.ok data
  | _ => Except.error 1

/-- Outcome of the post_to_discord call as observed by main: either the
function returns normally, or it reaches one of its sys.exit(1) paths
(HTTPError or URLError), raising SystemExit with code 1. -/
inductive PostOutcome where
  | success
  | fatalError
deriving DecidableEq

/-- The command-line flags of the script (parse_args, lines 253-274). -/
structure Args where
  force_post : Bool
  always_success : Bool
  webhook_username : Option String
  webhook_avatar_url : Option String

/-- The environment of one run of main: the webhook URL environment
variable, the JSON value the fetch returned, the state file content, and
the outcome the Discord POST would have. -/
structure RunInput where
  discord_webhook : Option String
  fetched : Json
  state_file : Option String
  post_outcome : PostOutcome

/-- Observable result of one run of main: the process exit code, whether
the webhook was called, whether the state file was written, and the
final state file content. -/
structure RunResult where
  exitCode : Nat
  webhookCalled : Bool
  stateWritten : Bool
  finalState : Option String
deriving DecidableEq

/-- main (lines 277-320): require the webhook URL (Python truthiness, so
an unset or empty variable is fatal); fetch and validate the payload
shape; compute the latest date, where the check of line 284 is again
Python truthiness (if not latest_date), so both None and the empty
string are fatal; read the state file; when the date changed or the
force flag is set, post to Discord, a fatal post failure being swallowed
exactly when always_success is set; then write the state file only when
the date had changed. -/
def run_main (args : Args) (inp : RunInput) : RunResult :=
  match inp.discord_webhook with
  | none => ⟨1, false, false, inp.state_file⟩
  | some wh =>
    if wh = "" then ⟨1, false, false, inp.state_file⟩
    else
      match fetch_esi_validate inp.fetched with
      | Except.error code => ⟨code, false, false, inp.state_file⟩
      | Except.ok (Json.jobj fields) =>
        match get_latest_date (DatesData.dict fields) with
        | none => ⟨1, false, false, inp.state_file⟩
        | some latest_date =>
          if latest_date = "" then ⟨1, false, false, inp.state_file⟩
          else
          let last_known_date := read_last_known_date inp.state_file
          let date_changed : Bool := decide (¬ last_known_date = some latest_date)
          if date_changed || args.force_post then
            match inp.post_outcome, args.always_success with
            | PostOutcome.fatalError, false => ⟨1, true, false, inp.state_file⟩
            | _, _ =>
              if date_changed then ⟨0, true, true, some latest_date⟩
              else ⟨0, true, false, inp.state_file⟩
          else ⟨0, false, false, inp.state_file⟩
      | Except.ok _ => ⟨1, false, false, inp.state_file⟩

/-- Over a list pairwise-ordered by a reflexive Boolean relation, every
element is related to the last element. -/
theorem pairwise_le_getLast {α : Type} {le : α → α → Bool}
    (hrefl : ∀ a, le a a = true) :
    ∀ (l : List α) (h : l ≠ []), l.Pairwise (fun a b => le a b = true) →
      ∀ x ∈ l, le x (l.getLast h) = true := by
  intro l
  induction l with
  | nil => intro h; exact absurd rfl h
  | cons a t ih =>
    intro h hp x hx
    cases t with
    | nil =>
      have hxa : x = a := by simpa using hx
      subst hxa
      simpa [List.getLast] using hrefl x
    | cons b t2 =>
      rw [List.getLast_cons (by simp : b :: t2 ≠ [])]
      rcases List.mem_cons.mp hx with hxa | hx2
      · subst hxa
        exact List.rel_of_pairwise_cons hp (List.getLast_mem _)
      · exact ih (by simp) (List.pairwise_cons.mp hp).2 x hx2

/-- The last element of a mergeSort by a transitive total Boolean
relation exists, is a member of the input list, and is maximal in it. -/
theorem mergeSort_getLast_max {α : Type} (le : α → α → Bool)
    (htrans : ∀ a b c, le a b = true → le b c = true → le a c = true)
    (htotal : ∀ a b, le a b = true ∨ le b a = true)
    (l : List α) (hne : l ≠ []) :
    ∃ r, (l.mergeSort le).getLast? = some r ∧ r ∈ l ∧ ∀ x ∈ l, le x r = true := by
  have hperm := List.mergeSort_perm l le
  have hsne : l.mergeSort le ≠ [] := by
    intro h
    rw [h] at hperm
    exact hne hperm.symm.eq_nil
  have hrefl : ∀ a, le a a = true := fun a => (htotal a a).elim id id
  have htotal2 : ∀ a b, (le a b || le b a) = true := by
    intro a b
    rcases htotal a b with h | h <;> simp [h]
  have hsort := @List.sorted_mergeSort _ le htrans htotal2 l
  refine ⟨(l.mergeSort le).getLast hsne, List.getLast?_eq_getLast _ hsne, ?_, ?_⟩
  · exact hperm.mem_iff.mp (List.getLast_mem hsne)
  · intro x hx
    exact pairwise_le_getLast hrefl _ hsne hsort x (List.mem_mergeSort.mpr hx)

/-- Last-occurrence argmax of a list by a Nat key: later elements win
ties, the composition of a stable ascending sort with taking the final
element. -/
def listLastMax {α : Type} (key : α → Nat) : List α → Option α
  | [] => none
  | x :: xs =>
    match listLastMax key xs with
    | none => some x
    | some y => if key x ≤ key y then some y else some x

/-- listLastMax returns none exactly on the empty list. -/
theorem listLastMax_eq_none_iff {α : Type} (key : α → Nat) :
    ∀ l : List α, listLastMax key l = none ↔ l = [] := by
  intro l
  cases l with
  | nil => simp [listLastMax]
  | cons a t =>
    simp only [listLastMax]
    constructor
    · intro h
      cases hm : listLastMax key t with
      | none => rw [hm] at h; simp at h
      | some y => rw [hm] at h; by_cases hk : key a ≤ key y <;> simp [hk] at h
    · intro h; exact absurd h (by simp)

/-- The last element of a stable merge sort by a Nat key is the last
occurrence, in input order, of an element with maximal key. -/
theorem mergeSort_getLast_eq_listLastMax {α : Type} (key : α → Nat) :
    ∀ l : List α,
      (l.mergeSort (fun a b => decide (key a ≤ key b))).getLast? = listLastMax key l
  | [] => by simp [listLastMax]
  | a :: t => by
    have ih := mergeSort_getLast_eq_listLastMax key t
    have htrans : ∀ x y z : α, (fun a b => decide (key a ≤ key b)) x y →
        (fun a b => decide (key a ≤ key b)) y z →
        (fun a b => decide (key a ≤ key b)) x z := by
      intro x y z hxy hyz
      simp only [decide_eq_true_eq] at *
      omega
    have htotal : ∀ x y : α, ((fun a b => decide (key a ≤ key b)) x y ||
        (fun a b => decide (key a ≤ key b)) y x) = true := by
      intro x y
      rcases Nat.le_total (key x) (key y) with h | h <;> simp [h]
    obtain ⟨l₁, l₂, h1, h2, h3⟩ := List.mergeSort_cons htrans htotal a t
    have hsort := @List.sorted_mergeSort _ (fun a b => decide (key a ≤ key b))
      htrans htotal (a :: t)
    rw [h1] at hsort
    rw [h1]
    cases hl2 : l₂ with
    | nil =>
      subst hl2
      rw [List.getLast?_append]
      simp only [List.getLast?_singleton, Option.or_some]
      rw [h2, List.append_nil] at ih
      simp only [listLastMax]
      rw [← ih]
      cases hl1 : l₁ with
      | nil => simp [hl1]
      | cons c cs =>
        rw [← hl1]
        have hne : l₁ ≠ [] := by rw [hl1]; simp
        rw [List.getLast?_eq_getLast _ hne]
        have hmem := List.getLast_mem hne
        have := h3 _ hmem
        simp only [Bool.not_eq_true', decide_eq_false_iff_not] at this
        simp [this]
    | cons c cs =>
      subst hl2
      rw [List.getLast?_append]
      have hlast2 : (a :: c :: cs).getLast? = (c :: cs).getLast? := by
        simp [List.getLast?_cons_cons]
      rw [hlast2]
      have hcne : (c :: cs : List α) ≠ [] := by simp
      rw [List.getLast?_eq_getLast _ hcne]
      simp only [Option.or_some]
      have hzmem : (c :: cs).getLast hcne ∈ c :: cs := List.getLast_mem hcne
      have haz : (fun a b => decide (key a ≤ key b)) a ((c :: cs).getLast hcne) := by
        have hp := (List.pairwise_append.mp hsort).2.1
        exact List.rel_of_pairwise_cons hp hzmem
      simp only [decide_eq_true_eq] at haz
      have ht : listLastMax key t = some ((c :: cs).getLast hcne) := by
        rw [← ih, h2, List.getLast?_append, List.getLast?_eq_getLast _ hcne]
        simp
      simp only [listLastMax]
      rw [ht]
      simp [haz]

/-- The decomposition guaranteed by listLastMax: the input splits around
the returned element, every element has key at most its key, and every
element strictly after it has strictly smaller key. -/
theorem listLastMax_spec {α : Type} (key : α → Nat) :
    ∀ (l : List α) (r : α), listLastMax key l = some r →
      ∃ pre post, l = pre ++ r :: post ∧ (∀ x ∈ l, key x ≤ key r) ∧
        ∀ x ∈ post, key x < key r := by
  intro l
  induction l with
  | nil => intro r hr; simp [listLastMax] at hr
  | cons a t ih =>
    intro r hr
    simp only [listLastMax] at hr
    cases hm : listLastMax key t with
    | none =>
      rw [hm] at hr
      have ht : t = [] := (listLastMax_eq_none_iff key t).mp hm
      subst ht
      simp only [Option.some.injEq] at hr
      subst hr
      exact ⟨[], [], by simp, by simp, by simp⟩
    | some y =>
      rw [hm] at hr
      obtain ⟨pre, post, hdec, hmax, hpost⟩ := ih y hm
      by_cases hk : key a ≤ key y
      · simp only [hk, if_true, Option.some.injEq] at hr
        subst hr
        refine ⟨a :: pre, post, by simp [hdec], ?_, hpost⟩
        intro x hx
        rcases List.mem_cons.mp hx with hxa | hxt
        · subst hxa; exact hk
        · exact hmax x hxt
      · simp only [hk, if_false, Option.some.injEq] at hr
        subst hr
        refine ⟨[], t, by simp, ?_, ?_⟩
        · intro x hx
          rcases List.mem_cons.mp hx with hxa | hxt
          · subst hxa; exact Nat.le_refl _
          · exact Nat.le_trans (hmax x hxt) (Nat.le_of_lt (Nat.lt_of_not_le hk))
        · intro x hxt
          exact Nat.lt_of_le_of_lt (hmax x hxt) (Nat.lt_of_not_le hk)

/-- listLastMax by the second component over a key-tagging map is the
key-tagging of listLastMax by the key. -/
theorem listLastMax_map_pair {α : Type} (key : α → Nat) :
    ∀ l : List α,
      listLastMax (fun p => p.2) (l.map (fun s => (s, key s)))
        = (listLastMax key l).map (fun s => (s, key s)) := by
  intro l
  induction l with
  | nil => simp [listLastMax]
  | cons a t ih =>
    simp only [List.map_cons, listLastMax, ih]
    cases hm : listLastMax key t with
    | none => simp
    | some y => by_cases hk : key a ≤ key y <;> simp [hk]

/-- When every entry parses, the comprehension of line 138 succeeds and
pairs each entry with its parsed key. -/
theorem parseAll_eq_map : ∀ {xs : List String},
    (∀ s ∈ xs, (parse_iso_date s).isSome) →
    parseAll xs = some (xs.map (fun s => (s, dateKey s))) := by
  intro xs
  induction xs with
  | nil => intro h; simp [parseAll]
  | cons a t ih =>
    intro h
    have ha := h a (by simp)
    obtain ⟨k, hk⟩ := Option.isSome_iff_exists.mp ha
    have ht := ih (fun s hs => h s (by simp [hs]))
    simp [parseAll, hk, ht, dateKey]

/-- When some entry fails to parse, the comprehension of line 138 raises
ValueError, modelled as none. -/
theorem parseAll_eq_none : ∀ {xs : List String},
    (∃ s ∈ xs, parse_iso_date s = none) → parseAll xs = none := by
  intro xs
  induction xs with
  | nil => intro h; simp at h
  | cons a t ih =>
    intro h
    obtain ⟨s, hs, hfail⟩ := h
    rcases List.mem_cons.mp hs with hsa | hst
    · subst hsa
      simp [parseAll, hfail]
    · have ht := ih ⟨s, hst, hfail⟩
      simp only [parseAll, ht]
      cases parse_iso_date a <;> rfl

/-- A payload whose extraction yields a nonempty list is truthy. -/
theorem pyFalsy_eq_false_of_extract {dd : DatesData} {xs : List String}
    (hex : extract_compatibility_dates dd = Except.ok xs) (hne : xs ≠ []) :
    pyFalsy dd = false := by
  cases dd with
  | pynone => simp [extract_compatibility_dates] at hex
  | list ys =>
    simp only [extract_compatibility_dates, Except.ok.injEq] at hex
    subst hex
    simpa [pyFalsy, List.isEmpty_iff] using hne
  | dict fields =>
    cases fields with
    | nil => simp [extract_compatibility_dates, lookupKey] at hex
    | cons f fs => simp [pyFalsy]

/-- Unfolding of get_latest_date past the truthiness, extraction and
emptiness guards. -/
theorem get_latest_date_eq_branch {dd : DatesData} {xs : List String}
    (hex : extract_compatibility_dates dd = Except.ok xs) (hne : xs ≠ []) :
    get_latest_date dd =
      match parseAll xs with
      | some parsed =>
        match (parsed.mergeSort (fun a b => decide (a.2 ≤ b.2))).getLast? with
        | some p => some p.1
        | none => none
      | none =>
        (xs.mergeSort (fun a b => decide (a.data ≤ b.data))).getLast? := by
  have hfal := pyFalsy_eq_false_of_extract hex hne
  have hemp : xs.isEmpty = false := by
    cases xs with
    | nil => exact absurd rfl hne
    | cons a t => rfl
  simp [get_latest_date, hfal, hex, hemp]

/-- The pair ordering used on line 141 of the script coincides with the
key ordering by the second component. -/
theorem mergeSort_pairs_getLast (l : List (String × Nat)) :
    (l.mergeSort (fun a b => decide (a.2 ≤ b.2))).getLast?
      = listLastMax (fun p => p.2) l :=
  mergeSort_getLast_eq_listLastMax (fun p => p.2) l

/-- Unfolding of get_latest_date onto the parsed-dates path. -/
theorem get_latest_date_of_parseAll_some {dd : DatesData} {xs : List String}
    {parsed : List (String × Nat)}
    (hex : extract_compatibility_dates dd = Except.ok xs) (hne : xs ≠ [])
    (hps : parseAll xs = some parsed) :
    get_latest_date dd =
      match (parsed.mergeSort (fun a b => decide (a.2 ≤ b.2))).getLast? with
      | some p => some p.1
      | none => none := by
  rw [get_latest_date_eq_branch hex hne, hps]

/-- Unfolding of get_latest_date onto the string-sort fallback path. -/
theorem get_latest_date_of_parseAll_none {dd : DatesData} {xs : List String}
    (hex : extract_compatibility_dates dd = Except.ok xs) (hne : xs ≠ [])
    (hps : parseAll xs = none) :
    get_latest_date dd =
      (xs.mergeSort (fun a b => decide (a.data ≤ b.data))).getLast? := by
  rw [get_latest_date_eq_branch hex hne, hps]

/-- On a truthy payload whose extracted entries all parse,
get_latest_date is the last-occurrence argmax by parsed date. -/
theorem get_latest_date_all_parse {dd : DatesData} {xs : List String}
    (hex : extract_compatibility_dates dd = Except.ok xs) (hne : xs ≠ [])
    (hp : ∀ s ∈ xs, (parse_iso_date s).isSome) :
    get_latest_date dd = listLastMax dateKey xs := by
  rw [get_latest_date_of_parseAll_some hex hne (parseAll_eq_map hp)]
  rw [mergeSort_pairs_getLast, listLastMax_map_pair]
  cases h : listLastMax dateKey xs with
  | none => simp
  | some r => simp

/-- Evaluation of get_latest_date on a dict holding a single date
string: the string itself is returned, on both the parsed path and the
string-sort fallback path. -/
theorem get_latest_date_dict_single (s : String) :
    get_latest_date (DatesData.dict [("compatibility_dates", Json.jarr [s])])
      = some s := by
  have hex : extract_compatibility_dates
      (DatesData.dict [("compatibility_dates", Json.jarr [s])]) = Except.ok [s] := rfl
  cases hp : parse_iso_date s with
  | some k =>
    rw [get_latest_date_of_parseAll_some hex (by simp)
      (show parseAll [s] = some [(s, k)] by simp [parseAll, hp])]
    simp
  | none =>
    rw [get_latest_date_of_parseAll_none hex (by simp) (by simp [parseAll, hp])]
    simp

/-- Every member of a list of keys occurs verbatim inside the Python
repr of that list. -/
theorem pyJoinComma_names : ∀ (ks : List String) (k : String), k ∈ ks →
    ∃ t u : List Char, (pyJoinComma ks).data = t ++ k.data ++ u := by
  intro ks
  induction ks with
  | nil => intro k hk; simp at hk
  | cons k0 rest ih =>
    intro k hk
    cases rest with
    | nil =>
      have hk0 : k = k0 := by simpa using hk
      subst hk0
      refine ⟨"\x27".data, "\x27".data, ?_⟩
      simp [pyJoinComma, pyQuote]
    | cons k1 rest2 =>
      rcases List.mem_cons.mp hk with hk0 | hkr
      · subst hk0
        refine ⟨"\x27".data, ("\x27, " ++ pyJoinComma (k1 :: rest2)).data, ?_⟩
        simp [pyJoinComma, pyQuote, List.append_assoc]
      · obtain ⟨t, u, htu⟩ := ih k hkr
        refine ⟨(pyQuote k0 ++ ", ").data ++ t, u, ?_⟩
        simp [pyJoinComma, pyQuote, List.append_assoc, htu]

/-- The missing-key error message of extract_compatibility_dates names
the missing compatibility_dates key and every key present in the
payload. -/
theorem missingKeyMsg_names (fields : List (String × Json)) :
    (∃ t u : List Char,
      (missingKeyMsg fields).data = t ++ "compatibility_dates".data ++ u) ∧
    ∀ k ∈ fields.map Prod.fst, ∃ t u : List Char,
      (missingKeyMsg fields).data = t ++ k.data ++ u := by
  constructor
  · refine ⟨"Missing \x27".data,
      "\x27 key in response. Available keys: ".data
        ++ (pyReprStrList (fields.map Prod.fst)).data, ?_⟩
    simp [missingKeyMsg, List.append_assoc]
  · intro k hk
    obtain ⟨t, u, htu⟩ := pyJoinComma_names (fields.map Prod.fst) k hk
    refine ⟨"Missing \x27compatibility_dates\x27 key in response. Available keys: [".data
      ++ t, u ++ "]".data, ?_⟩
    simp [missingKeyMsg, pyReprStrList, List.append_assoc, htu]

/-- C1: for every payload that is either a list of parseable date
strings or a dict wrapping one under the compatibility_dates key
(hypothesis hex covers exactly those two shapes), get_latest_date
returns one of the original entries as an unmodified string, and its
parsed calendar date (parse_iso_date discards everything from the first
T on) is maximal among all entries. -/
theorem C1_latest_is_max_entry {dd : DatesData} {xs : List String}
    (hex : extract_compatibility_dates dd = Except.ok xs) (hne : xs ≠ [])
    (hp : ∀ s ∈ xs, (parse_iso_date s).isSome) :
    ∃ r, get_latest_date dd = some r ∧ r ∈ xs ∧ ∀ s ∈ xs, dateKey s ≤ dateKey r := by
  rw [get_latest_date_all_parse hex hne hp]
  cases hm : listLastMax dateKey xs with
  | none => exact absurd ((listLastMax_eq_none_iff _ _).mp hm) hne
  | some r =>
    obtain ⟨pre, post, hdec, hmax, hpost⟩ := listLastMax_spec dateKey xs r hm
    refine ⟨r, rfl, ?_, hmax⟩
    rw [hdec]
    exact List.mem_append_right _ (by simp)

/-- Witness for C1 at the ISO-8601 test vector of the spec: the entry
with maximal calendar date is returned as its original string, the
time-of-day suffix preserved and ignored for comparison. -/
theorem C1_latest_is_max_entry_witness :
    get_latest_date (DatesData.dict [("compatibility_dates", Json.jarr
      ["2024-05-01T00:00:00Z", "2024-06-15T12:30:00Z", "2024-03-20T08:15:00Z"])])
      = some "2024-06-15T12:30:00Z" := by
  obtain ⟨r, heq, hmem, hmax⟩ := C1_latest_is_max_entry
    (show extract_compatibility_dates (DatesData.dict [("compatibility_dates", Json.jarr
      ["2024-05-01T00:00:00Z", "2024-06-15T12:30:00Z", "2024-03-20T08:15:00Z"])])
      = Except.ok ["2024-05-01T00:00:00Z", "2024-06-15T12:30:00Z", "2024-03-20T08:15:00Z"]
      from rfl)
    (by decide) (by decide)
  have h2 := hmax "2024-06-15T12:30:00Z" (by decide)
  simp only [List.mem_cons, List.not_mem_nil, or_false] at hmem
  rcases hmem with h | h | h <;> subst h
  · exact absurd h2 (by decide)
  · exact heq
  · exact absurd h2 (by decide)

/-- C10: when every entry of a nonempty list parses, get_latest_date
returns an entry of maximal parsed date such that every entry strictly
after it in input order has a strictly smaller parsed date: among
entries tied at the maximal date, the last occurrence wins, a
consequence of the stable ascending sort followed by taking the final
element. -/
theorem C10_tie_broken_by_last_occurrence {xs : List String} (hne : xs ≠ [])
    (hp : ∀ s ∈ xs, (parse_iso_date s).isSome) :
    ∃ r pre post, get_latest_date (DatesData.list xs) = some r ∧
      xs = pre ++ r :: post ∧ (∀ s ∈ xs, dateKey s ≤ dateKey r) ∧
      ∀ s ∈ post, dateKey s < dateKey r := by
  rw [get_latest_date_all_parse
    (show extract_compatibility_dates (DatesData.list xs) = Except.ok xs from rfl) hne hp]
  cases hm : listLastMax dateKey xs with
  | none => exact absurd ((listLastMax_eq_none_iff _ _).mp hm) hne
  | some r =>
    obtain ⟨pre, post, hdec, hmax, hpost⟩ := listLastMax_spec dateKey xs r hm
    exact ⟨r, pre, post, rfl, hdec, hmax, hpost⟩

/-- Witness for C10: two entries parse to the same calendar date
2024-06-15; the later one in input order is returned. -/
theorem C10_tie_broken_by_last_occurrence_witness :
    get_latest_date (DatesData.list ["2024-06-15", "2024-06-15T12:30:00Z"])
      = some "2024-06-15T12:30:00Z" := by
  obtain ⟨r, pre, post, heq, hdec, hmax, hpost⟩ :=
    C10_tie_broken_by_last_occurrence
      (show ["2024-06-15", "2024-06-15T12:30:00Z"] ≠ [] by decide) (by decide)
  rcases pre with _ | ⟨a, _ | ⟨b, pre2⟩⟩
  · simp only [List.nil_append, List.cons.injEq] at hdec
    obtain ⟨hr, hpost2⟩ := hdec
    subst hr
    have := hpost "2024-06-15T12:30:00Z" (by rw [← hpost2]; simp)
    exact absurd this (by decide)
  · simp only [List.cons_append, List.nil_append, List.cons.injEq] at hdec
    obtain ⟨ha, hr, hpost2⟩ := hdec
    subst hr
    exact heq
  · simp only [List.cons_append, List.cons.injEq] at hdec
    obtain ⟨ha, hb, habs⟩ := hdec
    exact absurd habs.symm (by simp)

/-- C5: whenever the extracted list contains an entry that fails to
parse, get_latest_date degrades to a lexicographic sort of the raw
strings (Python string order, i.e. lexicographic on the character
lists) and returns the maximal raw string; the result is always some
entry of the list, never an exception. -/
theorem C5_fallback_lexicographic {dd : DatesData} {xs : List String}
    (hex : extract_compatibility_dates dd = Except.ok xs)
    (hfail : ∃ s ∈ xs, parse_iso_date s = none) :
    ∃ r, get_latest_date dd = some r ∧ r ∈ xs ∧ ∀ s ∈ xs, s.data ≤ r.data := by
  have hne : xs ≠ [] := by
    rintro rfl
    obtain ⟨s, hs, _⟩ := hfail
    simp at hs
  rw [get_latest_date_of_parseAll_none hex hne (parseAll_eq_none hfail)]
  have htr : ∀ a b c : String, decide (a.data ≤ b.data) = true →
      decide (b.data ≤ c.data) = true → decide (a.data ≤ c.data) = true := by
    intro a b c hab hbc
    simp only [decide_eq_true_eq] at *
    exact le_trans hab hbc
  have hto : ∀ a b : String,
      decide (a.data ≤ b.data) = true ∨ decide (b.data ≤ a.data) = true := by
    intro a b
    rcases le_total a.data b.data with h | h
    · exact Or.inl (by simp [h])
    · exact Or.inr (by simp [h])
  have hspec := mergeSort_getLast_max (fun a b : String => decide (a.data ≤ b.data))
    htr hto xs hne
  obtain ⟨r, hlast, hmem, hmax⟩ := hspec
  refine ⟨r, hlast, hmem, fun s hs => ?_⟩
  simpa using hmax s hs

/-- Witness for C5: the entry not-a-date fails to parse, so the whole
list is compared as raw strings and the lexicographically greatest raw
string is returned. -/
theorem C5_fallback_lexicographic_witness :
    get_latest_date (DatesData.list ["2024-05-01", "not-a-date", "2024-06-15"])
      = some "not-a-date" := by
  obtain ⟨r, heq, hmem, hmax⟩ := C5_fallback_lexicographic
    (show extract_compatibility_dates (DatesData.list ["2024-05-01", "not-a-date", "2024-06-15"])
      = Except.ok ["2024-05-01", "not-a-date", "2024-06-15"] from rfl)
    ⟨"not-a-date", by decide, by decide⟩
  have h2 := hmax "not-a-date" (by decide)
  simp only [List.mem_cons, List.not_mem_nil, or_false] at hmem
  rcases hmem with h | h | h <;> subst h
  · exact absurd h2 (by decide)
  · exact heq
  · exact absurd h2 (by decide)

/-- C4: get_latest_date returns none, raising nothing, on absent input
(Python None), an empty list, a dict whose compatibility_dates list is
empty, a dict without the compatibility_dates key, and a dict with a
non-list value under that key; in the missing-key case the absorbed
extraction error names the missing key and every key present. -/
theorem C4_none_on_empty_or_bad :
    get_latest_date DatesData.pynone = none
  ∧ get_latest_date (DatesData.list []) = none
  ∧ (∀ fields, lookupKey "compatibility_dates" fields = some (Json.jarr []) →
      get_latest_date (DatesData.dict fields) = none)
  ∧ (∀ fields, lookupKey "compatibility_dates" fields = none →
      get_latest_date (DatesData.dict fields) = none ∧
      extract_compatibility_dates (DatesData.dict fields)
        = Except.error (missingKeyMsg fields) ∧
      (∃ t u : List Char,
        (missingKeyMsg fields).data = t ++ "compatibility_dates".data ++ u) ∧
      ∀ k ∈ fields.map Prod.fst, ∃ t u : List Char,
        (missingKeyMsg fields).data = t ++ k.data ++ u)
  ∧ ∀ fields v, lookupKey "compatibility_dates" fields = some v → v.isArr = false →
      get_latest_date (DatesData.dict fields) = none := by
  refine ⟨rfl, rfl, ?_, ?_, ?_⟩
  · intro fields hlk
    have hfal : pyFalsy (DatesData.dict fields) = false := by
      cases fields with
      | nil => simp [lookupKey] at hlk
      | cons f fs => rfl
    simp [get_latest_date, hfal, extract_compatibility_dates, hlk]
  · intro fields hlk
    refine ⟨?_, by simp [extract_compatibility_dates, hlk], (missingKeyMsg_names fields).1,
      (missingKeyMsg_names fields).2⟩
    cases fields with
    | nil => rfl
    | cons f fs =>
      simp [get_latest_date, pyFalsy, extract_compatibility_dates, hlk]
  · intro fields v hlk hv
    have hfal : pyFalsy (DatesData.dict fields) = false := by
      cases fields with
      | nil => simp [lookupKey] at hlk
      | cons f fs => rfl
    cases v with
    | jarr xs => simp [Json.isArr] at hv
    | jnull => simp [get_latest_date, hfal, extract_compatibility_dates, hlk]
    | jbool b => simp [get_latest_date, hfal, extract_compatibility_dates, hlk]
    | jnum n => simp [get_latest_date, hfal, extract_compatibility_dates, hlk]
    | jstr s => simp [get_latest_date, hfal, extract_compatibility_dates, hlk]
    | jobj fs => simp [get_latest_date, hfal, extract_compatibility_dates, hlk]

/-- Witness for C4 at concrete payloads: a dict carrying only
other_key, and a dict whose compatibility_dates value is a string. -/
theorem C4_none_on_empty_or_bad_witness :
    get_latest_date (DatesData.dict [("other_key", Json.jarr ["2024-05-01"])]) = none
  ∧ extract_compatibility_dates (DatesData.dict [("other_key", Json.jarr ["2024-05-01"])])
      = Except.error (missingKeyMsg [("other_key", Json.jarr ["2024-05-01"])])
  ∧ (∃ t u : List Char, (missingKeyMsg [("other_key", Json.jarr ["2024-05-01"])]).data
      = t ++ "other_key".data ++ u)
  ∧ get_latest_date (DatesData.dict [("compatibility_dates", Json.jstr "2024-05-01")])
      = none := by
  obtain ⟨h1, h2, h3, h4, h5⟩ := C4_none_on_empty_or_bad
  obtain ⟨h4a, h4b, h4c, h4d⟩ := h4 [("other_key", Json.jarr ["2024-05-01"])] rfl
  exact ⟨h4a, h4b, h4d "other_key" (by simp), h5 _ _ rfl rfl⟩

/-- C2 counterexample: the claim says a bare JSON list payload is
accepted by the response validation of fetch_esi_compatibility_dates;
the code rejects every non-dict, including a bare list, with
sys.exit(1), and the unit test test_fetch_esi_compatibility_dates_wrong_type
expects exactly that SystemExit. -/
theorem C2_counterexample :
    fetch_esi_validate (Json.jarr ["2024-05-01"]) = Except.error 1 := rfl

/-- C2 amended: the validation step of the fetcher accepts exactly the
object shape, and every other parsed JSON value, a bare list included,
fails fatally with process exit code 1. -/
theorem C2_object_only (data : Json) :
    fetch_esi_validate data = (if data.isObj then Except.ok data else Except.error 1) := by
  cases data <;> rfl

/-- C3 counterexample: the round trip is not the identity on every
string; a value with leading whitespace is stripped on read. -/
theorem C3_counterexample :
    read_last_known_date (write_latest_date none " 2024-06-15") ≠ some " 2024-06-15" := by
  decide

/-- C3 amended: for every nonempty string without surrounding
whitespace (its own strip), writing it to the state file and reading it
back yields the identical string; reading a nonexistent file yields
none; reading an empty file yields none. -/
theorem C3_roundtrip_stripped (file : Option String) (v : String)
    (hclean : pyStrip v = v) (hne : v ≠ "") :
    read_last_known_date (write_latest_date file v) = some v
  ∧ read_last_known_date none = none
  ∧ read_last_known_date (some "") = none := by
  refine ⟨?_, rfl, by decide⟩
  simp [read_last_known_date, write_latest_date, hclean, hne]

/-- Witness for C3 at a concrete date value and a missing file. -/
theorem C3_roundtrip_stripped_witness :
    read_last_known_date (write_latest_date none "2024-06-15") = some "2024-06-15"
  ∧ read_last_known_date none = none
  ∧ read_last_known_date (some "") = none :=
  C3_roundtrip_stripped none "2024-06-15" (by decide) (by decide)

/-- C6 counterexample: an empty-string username override is provided
(it is not the absent None default) yet the username key is omitted from
the payload, because the code tests Python truthiness, not presence. -/
theorem C6_counterexample :
    (some "" : Option String).isSome = true ∧
    (post_to_discord_payload "msg" (some "") none).map Prod.fst = ["content"] := by
  constructor
  · rfl
  · rfl

/-- C6 amended: the content key is always present and carries the
message; the username and avatar_url keys are present exactly when the
corresponding override is provided and nonempty (Python truthiness),
and omitted otherwise. -/
theorem C6_payload_keys (message : String) (username avatar_url : Option String) :
    ("content", message) ∈ post_to_discord_payload message username avatar_url
  ∧ (("username" ∈ (post_to_discord_payload message username avatar_url).map Prod.fst)
      ↔ pyTruthy username = true)
  ∧ (("avatar_url" ∈ (post_to_discord_payload message username avatar_url).map Prod.fst)
      ↔ pyTruthy avatar_url = true)
  ∧ (pyTruthy username = true →
      ("username", username.getD "") ∈ post_to_discord_payload message username avatar_url)
  ∧ (pyTruthy avatar_url = true →
      ("avatar_url", avatar_url.getD "") ∈ post_to_discord_payload message username avatar_url) := by
  cases hu : pyTruthy username <;> cases ha : pyTruthy avatar_url <;>
    simp [post_to_discord_payload, hu, ha]

/-- Witness for C6 at concrete overrides: both keys present when both
overrides are nonempty. -/
theorem C6_payload_keys_witness :
    ("content", "msg") ∈ post_to_discord_payload "msg" (some "bot") (some "http")
  ∧ (("username" ∈ (post_to_discord_payload "msg" (some "bot") (some "http")).map Prod.fst)
      ↔ pyTruthy (some "bot") = true)
  ∧ (("avatar_url" ∈ (post_to_discord_payload "msg" (some "bot") (some "http")).map Prod.fst)
      ↔ pyTruthy (some "http") = true)
  ∧ (pyTruthy (some "bot") = true →
      ("username", (some "bot" : Option String).getD "") ∈ post_to_discord_payload "msg" (some "bot") (some "http"))
  ∧ (pyTruthy (some "http") = true →
      ("avatar_url", (some "http" : Option String).getD "") ∈ post_to_discord_payload "msg" (some "bot") (some "http")) :=
  C6_payload_keys "msg" (some "bot") (some "http")

/-- read_last_known_date never returns the empty string: a file whose
stripped content is empty is reported as None. -/
theorem read_last_known_date_ne_empty {file : Option String} {v : String}
    (h : read_last_known_date file = some v) : ¬ v = "" := by
  cases file with
  | none => simp [read_last_known_date] at h
  | some content =>
    simp only [read_last_known_date] at h
    by_cases hc : pyStrip content = ""
    · simp [hc] at h
    · simp only [hc, if_false, Option.some.injEq] at h
      subst h
      exact hc

/-- The no-valid-dates check of line 284 is Python truthiness: a run
whose latest date is the empty string (reachable from a payload whose
compatibility_dates list holds a single empty string, via the
string-sort fallback) exits 1 before any webhook call or write. -/
theorem run_main_empty_latest_fatal (args : Args) (wh : String) (hwhne : ¬ wh = "")
    (st : Option String) (po : PostOutcome) :
    run_main args ⟨some wh, Json.jobj [("compatibility_dates", Json.jarr [""])], st, po⟩
      = ⟨1, false, false, st⟩ := by
  have h := get_latest_date_dict_single ""
  simp [run_main, hwhne, fetch_esi_validate, h]

/-- C7: when the persisted state equals the fetched latest date and the
force flag is not set, main makes no webhook call, performs no
state-file write, leaves the state file as it was, and exits 0. -/
theorem C7_unchanged_no_effects (args : Args) (inp : RunInput) (wh latest : String)
    (hwh : inp.discord_webhook = some wh) (hwhne : ¬ wh = "")
    (hfetched : ∃ fields, inp.fetched = Json.jobj fields ∧
      get_latest_date (DatesData.dict fields) = some latest)
    (hstate : read_last_known_date inp.state_file = some latest)
    (hforce : args.force_post = false) :
    run_main args inp = ⟨0, false, false, inp.state_file⟩ := by
  obtain ⟨fields, hf, hlat⟩ := hfetched
  have hlatne : ¬ latest = "" := read_last_known_date_ne_empty hstate
  simp [run_main, hwh, hwhne, hf, fetch_esi_validate, hlat, hlatne, hstate, hforce]

/-- Witness for C7: a run whose state file already holds the latest
date and whose force flag is clear touches nothing and exits 0. -/
theorem C7_unchanged_no_effects_witness :
    run_main ⟨false, false, none, none⟩
      ⟨some "hook", Json.jobj [("compatibility_dates", Json.jarr ["2024-06-15"])],
        some "2024-06-15", PostOutcome.success⟩
      = ⟨0, false, false, some "2024-06-15"⟩ :=
  C7_unchanged_no_effects ⟨false, false, none, none⟩
    ⟨some "hook", Json.jobj [("compatibility_dates", Json.jarr ["2024-06-15"])],
      some "2024-06-15", PostOutcome.success⟩
    "hook" "2024-06-15" rfl (by decide)
    ⟨[("compatibility_dates", Json.jarr ["2024-06-15"])], rfl,
      get_latest_date_dict_single "2024-06-15"⟩
    (by decide) rfl

/-- C8: in every run that reaches the notification step (a truthy
webhook URL, a validated payload, a truthy latest date, and a changed
date or the force flag), the webhook is called, and the state file is
written exactly when the persisted state differed from the latest date
and the notification succeeded or its failure was swallowed by the
always-success flag; in particular a forced post with unchanged state
calls the webhook but leaves the state file untouched. -/
theorem C8_write_iff_changed_and_delivered (args : Args) (inp : RunInput)
    (wh latest : String) (fields : List (String × Json))
    (hwh : inp.discord_webhook = some wh) (hwhne : ¬ wh = "")
    (hf : inp.fetched = Json.jobj fields)
    (hlat : get_latest_date (DatesData.dict fields) = some latest)
    (hlatne : ¬ latest = "")
    (hreach : ¬ read_last_known_date inp.state_file = some latest ∨ args.force_post = true) :
    (run_main args inp).webhookCalled = true
  ∧ ((run_main args inp).stateWritten = true ↔
      (¬ read_last_known_date inp.state_file = some latest ∧
        (inp.post_outcome = PostOutcome.success ∨ args.always_success = true)))
  ∧ (read_last_known_date inp.state_file = some latest →
      (run_main args inp).stateWritten = false ∧
      (run_main args inp).finalState = inp.state_file) := by
  by_cases hc : read_last_known_date inp.state_file = some latest
  · have hforce : args.force_post = true := by
      rcases hreach with h | h
      · exact absurd hc h
      · exact h
    cases hpo : inp.post_outcome <;> cases hal : args.always_success <;>
      simp [run_main, hwh, hwhne, hf, fetch_esi_validate, hlat, hlatne, hc, hforce, hpo, hal]
  · cases hpo : inp.post_outcome <;> cases hal : args.always_success <;>
      simp [run_main, hwh, hwhne, hf, fetch_esi_validate, hlat, hlatne, hc, hpo, hal]

/-- Witness for C8, scenario C of the spec: force flag set, state
unchanged; the webhook is called and the state file is not rewritten. -/
theorem C8_write_iff_changed_and_delivered_witness :
    (run_main ⟨true, false, none, none⟩
      ⟨some "hook", Json.jobj [("compatibility_dates", Json.jarr ["2024-07-01"])],
        some "2024-07-01", PostOutcome.success⟩).webhookCalled = true
  ∧ ((run_main ⟨true, false, none, none⟩
      ⟨some "hook", Json.jobj [("compatibility_dates", Json.jarr ["2024-07-01"])],
        some "2024-07-01", PostOutcome.success⟩).stateWritten = true ↔
      (¬ read_last_known_date (some "2024-07-01") = some "2024-07-01" ∧
        (PostOutcome.success = PostOutcome.success ∨ false = true)))
  ∧ (read_last_known_date (some "2024-07-01") = some "2024-07-01" →
      (run_main ⟨true, false, none, none⟩
        ⟨some "hook", Json.jobj [("compatibility_dates", Json.jarr ["2024-07-01"])],
          some "2024-07-01", PostOutcome.success⟩).stateWritten = false ∧
      (run_main ⟨true, false, none, none⟩
        ⟨some "hook", Json.jobj [("compatibility_dates", Json.jarr ["2024-07-01"])],
          some "2024-07-01", PostOutcome.success⟩).finalState = some "2024-07-01") :=
  C8_write_iff_changed_and_delivered ⟨true, false, none, none⟩
    ⟨some "hook", Json.jobj [("compatibility_dates", Json.jarr ["2024-07-01"])],
      some "2024-07-01", PostOutcome.success⟩
    "hook" "2024-07-01" [("compatibility_dates", Json.jarr ["2024-07-01"])]
    rfl (by decide) rfl (get_latest_date_dict_single "2024-07-01") (by decide)
    (Or.inr rfl)

/-- C9: when the webhook call fails fatally in a run that reaches the
notification step (a truthy webhook URL, a validated payload, a truthy
latest date, and a changed date or the force flag), the always-success
flag makes main swallow the
failure, exit 0 and still write the state file exactly when the date
had changed; without the flag the failure propagates as exit code 1 and
no write occurs. -/
theorem C9_always_success_swallows (args : Args) (inp : RunInput)
    (wh latest : String) (fields : List (String × Json))
    (hwh : inp.discord_webhook = some wh) (hwhne : ¬ wh = "")
    (hf : inp.fetched = Json.jobj fields)
    (hlat : get_latest_date (DatesData.dict fields) = some latest)
    (hlatne : ¬ latest = "")
    (hreach : ¬ read_last_known_date inp.state_file = some latest ∨ args.force_post = true)
    (hfatal : inp.post_outcome = PostOutcome.fatalError) :
    (args.always_success = true →
      (run_main args inp).exitCode = 0
    ∧ (run_main args inp).webhookCalled = true
    ∧ ((run_main args inp).stateWritten = true ↔
          ¬ read_last_known_date inp.state_file = some latest))
  ∧ (args.always_success = false →
      run_main args inp = ⟨1, true, false, inp.state_file⟩) := by
  by_cases hc : read_last_known_date inp.state_file = some latest
  · have hforce : args.force_post = true := by
      rcases hreach with h | h
      · exact absurd hc h
      · exact h
    cases hal : args.always_success <;>
      simp [run_main, hwh, hwhne, hf, fetch_esi_validate, hlat, hlatne, hc, hforce, hfatal, hal]
  · cases hal : args.always_success <;>
      simp [run_main, hwh, hwhne, hf, fetch_esi_validate, hlat, hlatne, hc, hfatal, hal]

/-- Witness for C9, scenario E of the spec: the POST fails, the
always-success flag is set, the date had changed; the run exits 0 and
still writes the state file. -/
theorem C9_always_success_swallows_witness :
    ((true : Bool) = true →
      (run_main ⟨false, true, none, none⟩
        ⟨some "hook", Json.jobj [("compatibility_dates", Json.jarr ["2024-08-01"])],
          none, PostOutcome.fatalError⟩).exitCode = 0
    ∧ (run_main ⟨false, true, none, none⟩
        ⟨some "hook", Json.jobj [("compatibility_dates", Json.jarr ["2024-08-01"])],
          none, PostOutcome.fatalError⟩).webhookCalled = true
    ∧ ((run_main ⟨false, true, none, none⟩
        ⟨some "hook", Json.jobj [("compatibility_dates", Json.jarr ["2024-08-01"])],
          none, PostOutcome.fatalError⟩).stateWritten = true ↔
          ¬ read_last_known_date none = some "2024-08-01"))
  ∧ ((true : Bool) = false →
      run_main ⟨false, true, none, none⟩
        ⟨some "hook", Json.jobj [("compatibility_dates", Json.jarr ["2024-08-01"])],
          none, PostOutcome.fatalError⟩ = ⟨1, true, false, none⟩) :=
  C9_always_success_swallows ⟨false, true, none, none⟩
    ⟨some "hook", Json.jobj [("compatibility_dates", Json.jarr ["2024-08-01"])],
      none, PostOutcome.fatalError⟩
    "hook" "2024-08-01" [("compatibility_dates", Json.jarr ["2024-08-01"])]
    rfl (by decide) rfl (get_latest_date_dict_single "2024-08-01") (by decide)
    (Or.inl (by decide)) rfl
